import Mathlib

set_option linter.unusedVariables false

/-! Verification of the BlazingSQL batch-aggregation pipeline as staged in
    src/engine/include/engine (ComputeAggregateKernel, DistributeAggregateKernel,
    MergeAggregateKernel). Batches are modelled as named columns over Nat cells,
    stored row-wise. The CacheMachine, the operator-library primitives and the
    messaging layer are declared but not defined in the staged sources, so they
    are modelled from the spec; the three kernels' do_process and run bodies are
    translated from the staged header. -/

/-- Row of a columnar batch: one cell per column, cells abstracted as Nat. -/
abbrev Row := List Nat

/-- Batch flowing between kernels: an ordered sequence of named columns of equal
length, stored row-wise here. Views and owning tables collapse in this model. -/
structure BlazingTable where
  names : List String
  rows : List Row
deriving DecidableEq, Repr

/-- Number of rows of a batch. -/
def BlazingTable.num_rows (t : BlazingTable) : Nat := t.rows.length

/-- Modelled from the spec: create_empty_table(view) yields an empty batch
sharing the view's schema (ral::utilities is outside the staged sources). -/
def create_empty_table (t : BlazingTable) : BlazingTable := ⟨t.names, []⟩

/-- Modelled from the spec (§4.1): an ordered queue of batches with a
finalization flag. dropEmpties stands for a cache that has been marked such
that empty batches are dropped. -/
structure CacheMachine where
  items : List BlazingTable
  dropEmpties : Bool
  finished : Bool
deriving DecidableEq, Repr

/-- Modelled from the spec (§4.1): addToCache(batch, id, allow_empty) appends
the batch and returns true, except that an empty batch is rejected when the
cache drops empties and allow_empty is false. -/
def CacheMachine.addToCache (c : CacheMachine) (t : BlazingTable)
    (message_id : String) (allow_empty : Bool) : CacheMachine × Bool :=
  if t.rows.isEmpty && c.dropEmpties && !allow_empty then (c, false)
  else ({ c with items := c.items ++ [t] }, true)

/-- Modelled from the spec (§4.1): wait_for_count(n) unblocks once the cache
has accepted at least n items. -/
def CacheMachine.wait_for_count_unblocked (c : CacheMachine) (n : Nat) : Prop :=
  n ≤ c.items.length

/-- Query-scoped metadata (spec §3): total node count, the designated master
node and this node's identity, node ids taken as Nat. -/
structure Context where
  total_nodes : Nat
  master_id : Nat
  self_id : Nat
deriving DecidableEq, Repr

/-- Whether the given node is the designated master node. -/
def Context.isMasterNode (ctx : Context) (node : Nat) : Bool :=
  node == ctx.master_id

/-- Closed set of aggregate operator variants (spec §3, operator descriptor). -/
inductive AggregateKind where
  | SUM | SUM0 | COUNT_VALID | COUNT_ALL | MIN | MAX | MEAN | NTH_ELEMENT | COUNT_DISTINCT
deriving DecidableEq, Repr

/-- Quadruple produced by parseGroupByExpression and by
modGroupByParametersForMerge (spec §3, operator descriptor). -/
structure ParsedExpr where
  group_column_indices : List Nat
  aggregation_input_expressions : List String
  aggregation_types : List AggregateKind
  aggregation_column_assigned_aliases : List String
deriving DecidableEq, Repr

/-- Modelled from the spec (§6, physical primitives): the operator-library
capability interface the kernels call. The functions are declared in headers
the staged sources include, but their code is not part of the staged sources,
so the kernels are verified over an arbitrary instance of this interface. -/
structure AggOps where
  parseGroupByExpression : String → ParsedExpr
  compute_groupby_without_aggregations : BlazingTable → List Nat → BlazingTable
  compute_aggregations_without_groupby :
    BlazingTable → List String → List AggregateKind → List String → BlazingTable
  compute_aggregations_with_groupby :
    BlazingTable → List String → List AggregateKind → List String → List Nat → BlazingTable
  modGroupByParametersForMerge : List Nat → List AggregateKind → List String → ParsedExpr

/-- Concatenation of the row blocks of a list of tables, in order. -/
def joinRows : List (List Row) → List Row
  | [] => []
  | b :: bs => b ++ joinRows bs

/-- Modelled from the spec (§6): concatTables(views) concatenates same-schema
batches; the schema is taken from the first view. -/
def concatTables (ts : List BlazingTable) : BlazingTable :=
  ⟨(ts.map BlazingTable.names).headD [], joinRows (ts.map BlazingTable.rows)⟩

/-- Start offset of each block given the block sizes: the offsets
cudf::hash_partition reports, always beginning with 0. -/
def startsOf : List Nat → List Nat
  | [] => []
  | s :: ss => 0 :: (startsOf ss).map (s + ·)

/-- Deterministic row hash used to assign rows to buckets. -/
def hashRow (r : Row) : Nat := r.foldl (fun a x => a * 31 + x + 1) 7

/-- Cells of the designated hash columns of a row, in order. -/
def selectCols (cols : List Nat) (r : Row) : Row := cols.map (fun i => r.getD i 0)

/-- Bucket 0 ≤ b < n a row is assigned to when hashing the designated columns. -/
def bucketOf (cols : List Nat) (n : Nat) (r : Row) : Nat :=
  hashRow (selectCols cols r) % n

/-- Modelled from the spec (§6 and glossary): hash_partition(view, hash_columns,
num_partitions) reorders the rows so that each bucket is contiguous and returns
the reordered table together with the start offset of every bucket (offsets
start at 0). -/
def hash_partition (t : BlazingTable) (cols : List Nat) (n : Nat) :
    BlazingTable × List Nat :=
  let buckets := (List.range n).map (fun i => t.rows.filter (fun r => bucketOf cols n r = i))
  (⟨t.names, joinRows buckets⟩, startsOf (buckets.map List.length))

/-- Cuts rows at the given ascending absolute indices, where the rows passed in
start at absolute position base; helper realizing cudf::split structurally. -/
def splitAtAbs : List Row → Nat → List Nat → List (List Row)
  | rows, _, [] => [rows]
  | rows, base, i :: rest =>
      rows.take (i - base) :: splitAtAbs (rows.drop (i - base)) i rest

/-- Modelled from the spec (§6): cudf::split(view, split_indexes) cuts the rows
at the given ascending absolute indices, producing split_indexes.length + 1
contiguous segments. -/
def splitRows (rows : List Row) (indexes : List Nat) : List (List Row) :=
  splitAtAbs rows 0 indexes

theorem splitAtAbs_join (bs : List (List Row)) :
    ∀ base : Nat, bs ≠ [] →
      splitAtAbs (joinRows bs) base
        (((startsOf (bs.map List.length)).drop 1).map (fun x => base + x)) = bs := by
  induction bs with
  | nil => exact fun base h => absurd rfl h
  | cons b bs ih =>
    intro base h
    cases bs with
    | nil =>
      simp [joinRows, startsOf, splitAtAbs]
    | cons b2 bs2 =>
      have ih2 := ih (base + b.length) (List.cons_ne_nil b2 bs2)
      have hhead : startsOf ((b2 :: bs2).map List.length)
          = 0 :: (startsOf ((b2 :: bs2).map List.length)).drop 1 := by
        simp [startsOf]
      have hcomp : ∀ l : List Nat,
          (l.map (fun x => b.length + x)).map (fun x => base + x)
            = l.map (fun x => (base + b.length) + x) := by
        intro l
        rw [List.map_map]
        apply List.map_congr_left
        intro x _
        show base + (b.length + x) = base + b.length + x
        omega
      have key : ((startsOf ((b :: b2 :: bs2).map List.length)).drop 1).map (fun x => base + x)
          = (base + b.length) ::
            ((startsOf ((b2 :: bs2).map List.length)).drop 1).map
              (fun x => (base + b.length) + x) := by
        show ((startsOf ((b2 :: bs2).map List.length)).map (fun x => b.length + x)).map
              (fun x => base + x) = _
        rw [hcomp]
        conv_lhs => rw [hhead]
        simp
      show splitAtAbs (b ++ joinRows (b2 :: bs2)) base
          (((startsOf ((b :: b2 :: bs2).map List.length)).drop 1).map (fun x => base + x))
          = b :: b2 :: bs2
      rw [key]
      simp only [splitAtAbs]
      rw [show base + b.length - base = b.length from by omega]
      rw [List.take_left, List.drop_left, ih2]

/-- Splitting the concatenation of blocks at the cumulative start offsets
(leading 0 dropped) recovers exactly the blocks. -/
theorem splitRows_startsOf (bs : List (List Row)) (h : bs ≠ []) :
    splitRows (joinRows bs) ((startsOf (bs.map List.length)).drop 1) = bs := by
  have h0 := splitAtAbs_join bs 0 h
  simpa [splitRows] using h0

/-- Table computed by ComputeAggregateKernel::do_process for one input batch,
selected by operator shape exactly as the staged header does. -/
def ComputeAggregateKernel.computed_columns (ops : AggOps) (p : ParsedExpr)
    (input : BlazingTable) : BlazingTable :=
  if p.aggregation_types.length = 0 then
    ops.compute_groupby_without_aggregations input p.group_column_indices
  else if p.group_column_indices.length = 0 then
    ops.compute_aggregations_without_groupby input
      p.aggregation_input_expressions p.aggregation_types
      p.aggregation_column_assigned_aliases
  else
    ops.compute_aggregations_with_groupby input
      p.aggregation_input_expressions p.aggregation_types
      p.aggregation_column_assigned_aliases p.group_column_indices

/-- ComputeAggregateKernel::do_process: computes the partial aggregate of
inputs[0] and performs one addToCache call on the output cache. -/
def ComputeAggregateKernel.do_process (ops : AggOps) (p : ParsedExpr)
    (inputs : List BlazingTable) (output : CacheMachine) : CacheMachine :=
  (output.addToCache
    (ComputeAggregateKernel.computed_columns ops p (inputs.headD ⟨[], []⟩)) "" false).1

/-- Partition list DistributeAggregateKernel::do_process builds on the grouped
path and passes to scatter: hash-partition then split at the offsets with the
leading 0 dropped when the batch has rows, N copies of the empty input view
otherwise. -/
def DistributeAggregateKernel.grouped_partitions (num_partitions : Nat)
    (columns_to_hash : List Nat) (input : BlazingTable) : List BlazingTable :=
  if input.num_rows > 0 then
    let hp := hash_partition input columns_to_hash num_partitions
    let split_indexes := hp.2.drop 1
    (splitRows hp.1.rows split_indexes).map (fun rs => ⟨input.names, rs⟩)
  else
    (List.range num_partitions).map (fun _ => input)

/-- State of a DistributeAggregateKernel: context, parsed group columns, the
hash column list run() derives from them, the first-batch flag, the output
cache, the per-destination partition counters, and the effect logs of
send_message and scatter calls (modelled from the spec's messaging contract). -/
structure DistributeAggregateKernel where
  context : Context
  group_column_indices : List Nat
  columns_to_hash : List Nat
  set_empty_part_for_non_master_node : Bool
  output : CacheMachine
  node_counts : Nat → Nat
  sent : List (Nat × BlazingTable)
  scattered : List (List BlazingTable)

/-- Counter update performed by increment_node_count(id). -/
def incrementNodeCount (f : Nat → Nat) (id : Nat) : Nat → Nat :=
  fun j => if j = id then f j + 1 else f j

/-- DistributeAggregateKernel::do_process for one input batch, translated from
the staged header: the scalar-aggregate path deposits on the master (counting
the accepted add) or, on a non-master, deposits one empty batch on the first
call and forwards the batch to the master; the grouped path hash-partitions
the batch and passes the partitions to scatter. -/
def DistributeAggregateKernel.do_process (k : DistributeAggregateKernel)
    (input : BlazingTable) : DistributeAggregateKernel :=
  let num_partitions := k.context.total_nodes
  if k.group_column_indices.length = 0 then
    if k.context.isMasterNode k.context.self_id then
      let r := k.output.addToCache input "" false
      let k1 := { k with output := r.1 }
      if r.2 then
        { k1 with node_counts := incrementNodeCount k1.node_counts k.context.self_id }
      else k1
    else
      let k1 :=
        if !k.set_empty_part_for_non_master_node then
          let empty := create_empty_table input
          let r := k.output.addToCache empty "" true
          let k2 := { k with output := r.1, set_empty_part_for_non_master_node := true }
          if r.2 then
            { k2 with node_counts := incrementNodeCount k2.node_counts k.context.self_id }
          else k2
        else k
      { k1 with sent := k1.sent ++ [(k.context.master_id, input)] }
  else
    { k with scattered := k.scattered ++
        [DistributeAggregateKernel.grouped_partitions num_partitions k.columns_to_hash input] }

/-- On a batch with rows, the grouped partition list is exactly one table per
bucket: partition i holds precisely the input rows hashed to bucket i. -/
theorem grouped_partitions_of_rows (N : Nat) (hN : 0 < N) (cols : List Nat)
    (input : BlazingTable) (hrows : input.rows ≠ []) :
    DistributeAggregateKernel.grouped_partitions N cols input
      = (List.range N).map
          (fun i => ⟨input.names, input.rows.filter (fun r => bucketOf cols N r = i)⟩) := by
  have hpos : input.num_rows > 0 := by
    simpa [BlazingTable.num_rows, List.length_pos] using hrows
  have hbne : (List.range N).map
      (fun i => input.rows.filter (fun r => bucketOf cols N r = i)) ≠ [] := by
    intro hcontra
    rw [List.map_eq_nil_iff, List.range_eq_nil] at hcontra
    omega
  have hsplit := splitRows_startsOf
    ((List.range N).map (fun i => input.rows.filter (fun r => bucketOf cols N r = i))) hbne
  simp only [DistributeAggregateKernel.grouped_partitions, hash_partition, if_pos hpos]
  rw [hsplit, List.map_map]
  rfl

/-- Table computed by MergeAggregateKernel::do_process: concatenate all inputs,
reparse the expression, rewrite the parameters with
modGroupByParametersForMerge, then dispatch exactly as the staged header does
(the scalar branch recomputes only on the master node). -/
def MergeAggregateKernel.merged_columns (ops : AggOps) (expression : String)
    (is_master : Bool) (inputs : List BlazingTable) : BlazingTable :=
  let concatenated := concatTables inputs
  let p := ops.parseGroupByExpression expression
  let m := ops.modGroupByParametersForMerge p.group_column_indices
            p.aggregation_types concatenated.names
  if p.aggregation_types.length = 0 then
    ops.compute_groupby_without_aggregations concatenated m.group_column_indices
  else if p.group_column_indices.length = 0 then
    if is_master then
      ops.compute_aggregations_without_groupby concatenated
        m.aggregation_input_expressions m.aggregation_types
        m.aggregation_column_assigned_aliases
    else
      concatenated
  else
    ops.compute_aggregations_with_groupby concatenated
      m.aggregation_input_expressions m.aggregation_types
      m.aggregation_column_assigned_aliases m.group_column_indices

/-- MergeAggregateKernel::do_process: one addToCache call with the merged
columns. -/
def MergeAggregateKernel.do_process (ops : AggOps) (expression : String)
    (is_master : Bool) (inputs : List BlazingTable) (output : CacheMachine) :
    CacheMachine :=
  (output.addToCache
    (MergeAggregateKernel.merged_columns ops expression is_master inputs) "" false).1

/-- Kernel run() status. -/
inductive kstatus where
  | stop | proceed
deriving DecidableEq, Repr

/-- Observable steps of a kernel's run() method, in program order: task
submissions to the executor, the condition-variable barrier on the empty task
set, the partition-count exchange and wait of DistributeAggregateKernel::run,
a finish() call on the kernel's own output cache, and the return. -/
inductive KEvent where
  | waitUntilFinished
  | addTask (inputs : List BlazingTable)
  | barrierTasksEmpty
  | sendCounts (counts : List Nat)
  | waitForCount (n : Nat)
  | finishOutput
  | ret (s : kstatus)
deriving DecidableEq, Repr

/-- ComputeAggregateKernel::run on a finished input stream holding the given
batches: one task per pulled batch, then the barrier, then return proceed. -/
def ComputeAggregateKernel.run_events (batches : List BlazingTable) : List KEvent :=
  batches.map (fun b => KEvent.addTask [b])
    ++ [KEvent.barrierTasksEmpty, KEvent.ret kstatus.proceed]

/-- Fold of DistributeAggregateKernel::do_process over the pulled batches, in
order: the kernel state once the task barrier has released. -/
def DistributeAggregateKernel.processAll (k : DistributeAggregateKernel)
    (batches : List BlazingTable) : DistributeAggregateKernel :=
  batches.foldl DistributeAggregateKernel.do_process k

/-- DistributeAggregateKernel::run on a finished input stream holding the given
batches, where received_counts are the partition counts this node receives from
its peers (itself included): one task per batch, the barrier, then
send_total_partition_counts transmits the per-destination counters as they
stand after all tasks, then wait_for_count on the sum of the received counts,
then return proceed. -/
def DistributeAggregateKernel.run_events (k : DistributeAggregateKernel)
    (batches : List BlazingTable) (received_counts : List Nat) : List KEvent :=
  batches.map (fun b => KEvent.addTask [b])
    ++ [KEvent.barrierTasksEmpty,
        KEvent.sendCounts
          ((List.range k.context.total_nodes).map (k.processAll batches).node_counts),
        KEvent.waitForCount received_counts.sum,
        KEvent.ret kstatus.proceed]

/-- Drain loop of MergeAggregateKernel::run: pull every item of the finished
input cache, appending each non-null pull to the collected list. -/
def drainAll : List BlazingTable → List BlazingTable → List BlazingTable
  | [], acc => acc
  | x :: rest, acc => drainAll rest (acc ++ [x])

/-- MergeAggregateKernel::run: wait_until_finished, drain the input cache,
submit one task with everything collected, barrier, return proceed. The events
exist only once the producer has finished the cache; none models the blocked
wait. -/
def MergeAggregateKernel.run_events (c : CacheMachine) : Option (List KEvent) :=
  if c.finished then
    some [KEvent.waitUntilFinished, KEvent.addTask (drainAll c.items []),
          KEvent.barrierTasksEmpty, KEvent.ret kstatus.proceed]
  else
    none

theorem drainAll_eq : ∀ items acc : List BlazingTable, drainAll items acc = acc ++ items := by
  intro items
  induction items with
  | nil => intro acc; simp [drainAll]
  | cons x rest ih =>
    intro acc
    rw [drainAll, ih (acc ++ [x])]
    simp

/-- Sum of the parts of a row used by the concrete model operators. -/
def sumFirstCells (t : BlazingTable) : Nat :=
  t.rows.foldl (fun a r => a + r.headD 0) 0

/-- Modelled from the spec: one concrete instance of the operator library, used
to evaluate the kernels on concrete inputs. Group-only aggregation keeps the
distinct group-key tuples; a scalar aggregation returns one row of partial
aggregates (§4.4). -/
def modelOps : AggOps where
  parseGroupByExpression := fun e =>
    if e = "scalar" then ⟨[], ["v"], [AggregateKind.SUM], ["sum_v"]⟩
    else if e = "grouped" then ⟨[0], ["v"], [AggregateKind.SUM], ["sum_v"]⟩
    else ⟨[0], [], [], []⟩
  compute_groupby_without_aggregations := fun t g =>
    ⟨t.names, (t.rows.map (selectCols g)).dedup⟩
  compute_aggregations_without_groupby := fun t _e _k _a =>
    ⟨["agg"], [[sumFirstCells t]]⟩
  compute_aggregations_with_groupby := fun t _e _k _a g =>
    ⟨t.names, (t.rows.map (selectCols g)).dedup⟩
  modGroupByParametersForMerge := fun g k names => ⟨g, names, k, names⟩

/-- Claim C1: for every input batch, ComputeAggregateKernel::do_process performs
exactly one add of one output batch to the output cache, computed by
compute_groupby_without_aggregations when aggregation_types is empty, by
compute_aggregations_without_groupby when aggregation_types is non-empty and
group_column_indices is empty, and by compute_aggregations_with_groupby when
both are non-empty; on a cache that keeps empties the output cache grows by
exactly that batch. -/
theorem computeAggregate_emits_one_selected_batch (ops : AggOps) (p : ParsedExpr)
    (input : BlazingTable) (output : CacheMachine) :
    ComputeAggregateKernel.do_process ops p [input] output
      = (output.addToCache
          (if p.aggregation_types = [] then
            ops.compute_groupby_without_aggregations input p.group_column_indices
          else if p.group_column_indices = [] then
            ops.compute_aggregations_without_groupby input
              p.aggregation_input_expressions p.aggregation_types
              p.aggregation_column_assigned_aliases
          else
            ops.compute_aggregations_with_groupby input
              p.aggregation_input_expressions p.aggregation_types
              p.aggregation_column_assigned_aliases p.group_column_indices) "" false).1
    ∧ (output.dropEmpties = false →
        (ComputeAggregateKernel.do_process ops p [input] output).items
          = output.items ++ [ComputeAggregateKernel.computed_columns ops p input]) := by
  constructor
  · have hc : ComputeAggregateKernel.computed_columns ops p input
        = (if p.aggregation_types = [] then
            ops.compute_groupby_without_aggregations input p.group_column_indices
          else if p.group_column_indices = [] then
            ops.compute_aggregations_without_groupby input
              p.aggregation_input_expressions p.aggregation_types
              p.aggregation_column_assigned_aliases
          else
            ops.compute_aggregations_with_groupby input
              p.aggregation_input_expressions p.aggregation_types
              p.aggregation_column_assigned_aliases p.group_column_indices) := by
      simp only [ComputeAggregateKernel.computed_columns, List.length_eq_zero]
    simp only [ComputeAggregateKernel.do_process, List.headD_cons, hc]
  · intro h
    simp [ComputeAggregateKernel.do_process, CacheMachine.addToCache, h]

/-- Claim C2: on the grouped path, every batch is hash-partitioned on
columns_to_hash = group_column_indices into exactly N = total_nodes contiguous
segments (split at the offsets with the leading 0 dropped); an empty batch
yields N empty views sharing the input's schema; the N partitions are passed
to scatter, and nothing is deposited locally or sent point to point. -/
theorem distributeAggregate_grouped_hash_partition
    (k : DistributeAggregateKernel) (input : BlazingTable)
    (hg : k.group_column_indices ≠ [])
    (hct : k.columns_to_hash = k.group_column_indices)
    (hN : 0 < k.context.total_nodes) :
    (k.do_process input).scattered
      = k.scattered ++ [DistributeAggregateKernel.grouped_partitions
          k.context.total_nodes k.columns_to_hash input]
    ∧ (DistributeAggregateKernel.grouped_partitions
        k.context.total_nodes k.columns_to_hash input).length = k.context.total_nodes
    ∧ (input.rows = [] →
        DistributeAggregateKernel.grouped_partitions
            k.context.total_nodes k.columns_to_hash input
          = (List.range k.context.total_nodes).map (fun _ => input))
    ∧ (input.rows ≠ [] →
        DistributeAggregateKernel.grouped_partitions
            k.context.total_nodes k.columns_to_hash input
          = (List.range k.context.total_nodes).map
              (fun i => ⟨input.names, input.rows.filter
                (fun r => bucketOf k.group_column_indices k.context.total_nodes r = i)⟩))
    ∧ (k.do_process input).output = k.output
    ∧ (k.do_process input).sent = k.sent := by
  have hlen : ¬ k.group_column_indices.length = 0 := by
    simpa [List.length_eq_zero] using hg
  refine ⟨?_, ?_, ?_, ?_, ?_, ?_⟩
  · simp [DistributeAggregateKernel.do_process, hlen]
  · by_cases hr : input.rows = []
    · simp [DistributeAggregateKernel.grouped_partitions, BlazingTable.num_rows, hr]
    · rw [grouped_partitions_of_rows k.context.total_nodes hN k.columns_to_hash input hr]
      simp
  · intro hr
    simp [DistributeAggregateKernel.grouped_partitions, BlazingTable.num_rows, hr]
  · intro hr
    rw [grouped_partitions_of_rows k.context.total_nodes hN k.columns_to_hash input hr, hct]
  · simp [DistributeAggregateKernel.do_process, hlen]
  · simp [DistributeAggregateKernel.do_process, hlen]

/-- Fresh output cache used by the concrete test fixtures: empty, non-finished,
marked to drop empty batches. -/
def wCache0 : CacheMachine := ⟨[], true, false⟩

/-- Fixture: grouped DistributeAggregateKernel on a 2-node cluster. -/
def K2 : DistributeAggregateKernel :=
  ⟨⟨2, 0, 0⟩, [0], [0], false, wCache0, fun _ => 0, [], []⟩

/-- Fixture: a three-row batch with a key and a value column. -/
def T2 : BlazingTable := ⟨["k", "v"], [[1, 10], [2, 20], [3, 30]]⟩

theorem distributeAggregate_grouped_hash_partition_witness :
    0 < K2.context.total_nodes
    ∧ (K2.do_process T2).scattered
        = K2.scattered ++ [DistributeAggregateKernel.grouped_partitions
            K2.context.total_nodes K2.columns_to_hash T2] :=
  ⟨by decide,
   (distributeAggregate_grouped_hash_partition K2 T2 (by decide) rfl (by decide)).1⟩

/-- Fixture: scalar-path DistributeAggregateKernel on the master node of a
single-node cluster, with the empties-dropping output cache. -/
def K3 : DistributeAggregateKernel :=
  ⟨⟨1, 0, 0⟩, [], [], false, wCache0, fun _ => 0, [], []⟩

/-- Fixture: an empty batch carrying the scalar-aggregate schema. -/
def T0 : BlazingTable := ⟨["sum_v"], []⟩

/-- Fixture: a one-row scalar-aggregate partial. -/
def T1 : BlazingTable := ⟨["sum_v"], [[5]]⟩

/-- Claim C3 counterexample: the staged code deposits on the master with
allow_empty = false (line 146 passes false), so on a cache that drops empties
an empty input batch is rejected: nothing reaches the output cache and the
self counter is not incremented, refuting the claimed empty-allowed semantics. -/
theorem distributeAggregate_master_empty_rejected_cex :
    (K3.do_process T0).output.items = [] ∧ (K3.do_process T0).node_counts 0 = 0 :=
  ⟨rfl, rfl⟩

/-- Claim C3 (amended): on the scalar-aggregate path the master node deposits
each input batch into its own output cache with allow_empty = false: a batch
with rows, or any batch on a cache that keeps empties, is accepted and the
self node counter is incremented; an empty batch on a cache that drops empties
is rejected and the counter is unchanged. No message is sent and nothing is
scattered. -/
theorem distributeAggregate_master_scalar_deposit
    (k : DistributeAggregateKernel) (input : BlazingTable)
    (hg : k.group_column_indices = [])
    (hm : k.context.isMasterNode k.context.self_id = true) :
    ((input.rows ≠ [] ∨ k.output.dropEmpties = false) →
      (k.do_process input).output.items = k.output.items ++ [input]
      ∧ (k.do_process input).node_counts k.context.self_id
          = k.node_counts k.context.self_id + 1)
    ∧ (input.rows = [] ∧ k.output.dropEmpties = true →
      (k.do_process input).output.items = k.output.items
      ∧ (k.do_process input).node_counts k.context.self_id
          = k.node_counts k.context.self_id)
    ∧ (k.do_process input).sent = k.sent
    ∧ (k.do_process input).scattered = k.scattered := by
  have hlen : k.group_column_indices.length = 0 := by rw [hg]; rfl
  refine ⟨?_, ?_, ?_, ?_⟩
  · intro hacc
    have hc : ¬(input.rows = [] ∧ k.output.dropEmpties = true) := by
      rcases hacc with hne | hde
      · exact fun hx => hne hx.1
      · intro hx
        rw [hde] at hx
        exact Bool.false_ne_true hx.2
    constructor
    · simp [DistributeAggregateKernel.do_process, hlen, hm,
        CacheMachine.addToCache, hc]
    · simp [DistributeAggregateKernel.do_process, hlen, hm,
        CacheMachine.addToCache, hc, incrementNodeCount]
  · intro hrej
    constructor
    · simp [DistributeAggregateKernel.do_process, hlen, hm,
        CacheMachine.addToCache, hrej.1, hrej.2]
    · simp [DistributeAggregateKernel.do_process, hlen, hm,
        CacheMachine.addToCache, hrej.1, hrej.2]
  · by_cases hc : input.rows = [] ∧ k.output.dropEmpties = true
    · simp [DistributeAggregateKernel.do_process, hlen, hm,
        CacheMachine.addToCache, hc.1, hc.2]
    · simp [DistributeAggregateKernel.do_process, hlen, hm,
        CacheMachine.addToCache, hc]
  · by_cases hc : input.rows = [] ∧ k.output.dropEmpties = true
    · simp [DistributeAggregateKernel.do_process, hlen, hm,
        CacheMachine.addToCache, hc.1, hc.2]
    · simp [DistributeAggregateKernel.do_process, hlen, hm,
        CacheMachine.addToCache, hc]

theorem distributeAggregate_master_scalar_deposit_witness :
    (K3.do_process T1).output.items = K3.output.items ++ [T1]
    ∧ (K3.do_process T1).node_counts K3.context.self_id
        = K3.node_counts K3.context.self_id + 1 :=
  (distributeAggregate_master_scalar_deposit K3 T1 rfl rfl).1 (Or.inl (by decide))

/-- Claim C4: on the scalar-aggregate path a non-master node always sends the
actual batch to the master node, deposits exactly one empty batch with the
input's schema into its own output cache on its first processed batch
(the first-batch flag becomes and stays set), and makes no empty deposit on
any later batch. -/
theorem distributeAggregate_nonmaster_scalar
    (k : DistributeAggregateKernel) (input : BlazingTable)
    (hg : k.group_column_indices = [])
    (hm : k.context.isMasterNode k.context.self_id = false) :
    (k.do_process input).sent = k.sent ++ [(k.context.master_id, input)]
    ∧ (k.set_empty_part_for_non_master_node = false →
        (k.do_process input).output.items
          = k.output.items ++ [create_empty_table input]
        ∧ (k.do_process input).set_empty_part_for_non_master_node = true)
    ∧ (k.set_empty_part_for_non_master_node = true →
        (k.do_process input).output.items = k.output.items
        ∧ (k.do_process input).set_empty_part_for_non_master_node = true)
    ∧ (k.do_process input).scattered = k.scattered := by
  have hlen : k.group_column_indices.length = 0 := by rw [hg]; rfl
  refine ⟨?_, ?_, ?_, ?_⟩
  · by_cases hflag : k.set_empty_part_for_non_master_node
    · simp [DistributeAggregateKernel.do_process, hlen, hm, hflag]
    · simp [DistributeAggregateKernel.do_process, hlen, hm, hflag,
        CacheMachine.addToCache]
  · intro hflag
    constructor
    · simp [DistributeAggregateKernel.do_process, hlen, hm, hflag,
        CacheMachine.addToCache]
    · simp [DistributeAggregateKernel.do_process, hlen, hm, hflag,
        CacheMachine.addToCache]
  · intro hflag
    constructor
    · simp [DistributeAggregateKernel.do_process, hlen, hm, hflag]
    · simp [DistributeAggregateKernel.do_process, hlen, hm, hflag]
  · by_cases hflag : k.set_empty_part_for_non_master_node
    · simp [DistributeAggregateKernel.do_process, hlen, hm, hflag]
    · simp [DistributeAggregateKernel.do_process, hlen, hm, hflag,
        CacheMachine.addToCache]

/-- Fixture: scalar-path DistributeAggregateKernel on a non-master node of a
2-node cluster. -/
def K4 : DistributeAggregateKernel :=
  ⟨⟨2, 0, 1⟩, [], [], false, wCache0, fun _ => 0, [], []⟩

theorem distributeAggregate_nonmaster_scalar_witness :
    (K4.do_process T1).sent = K4.sent ++ [(K4.context.master_id, T1)] :=
  (distributeAggregate_nonmaster_scalar K4 T1 rfl rfl).1

/-- Claim C10: on the scalar-aggregate path the self node counter advances by
exactly the number of deposits the output cache accepted in this call (so a
rejected deposit never increments it), and no other node counter moves;
this holds on master and non-master nodes alike. -/
theorem distributeAggregate_scalar_count_tracks_accepts
    (k : DistributeAggregateKernel) (input : BlazingTable)
    (hg : k.group_column_indices = []) :
    (k.do_process input).node_counts k.context.self_id + k.output.items.length
      = k.node_counts k.context.self_id + (k.do_process input).output.items.length
    ∧ (∀ j, j ≠ k.context.self_id →
        (k.do_process input).node_counts j = k.node_counts j) := by
  have hlen : k.group_column_indices.length = 0 := by rw [hg]; rfl
  by_cases hm : k.context.isMasterNode k.context.self_id
  · by_cases hc : input.rows = [] ∧ k.output.dropEmpties = true
    · constructor
      · simp [DistributeAggregateKernel.do_process, hlen, hm,
          CacheMachine.addToCache, hc.1, hc.2]
      · intro j hj
        simp [DistributeAggregateKernel.do_process, hlen, hm,
          CacheMachine.addToCache, hc.1, hc.2]
    · constructor
      · simp [DistributeAggregateKernel.do_process, hlen, hm,
          CacheMachine.addToCache, hc, incrementNodeCount]
        omega
      · intro j hj
        simp [DistributeAggregateKernel.do_process, hlen, hm,
          CacheMachine.addToCache, hc, incrementNodeCount, hj]
  · by_cases hflag : k.set_empty_part_for_non_master_node
    · constructor
      · simp [DistributeAggregateKernel.do_process, hlen, hm, hflag]
      · intro j hj
        simp [DistributeAggregateKernel.do_process, hlen, hm, hflag]
    · constructor
      · simp [DistributeAggregateKernel.do_process, hlen, hm, hflag,
          CacheMachine.addToCache, incrementNodeCount]
        omega
      · intro j hj
        simp [DistributeAggregateKernel.do_process, hlen, hm, hflag,
          CacheMachine.addToCache, incrementNodeCount, hj]

theorem distributeAggregate_scalar_count_tracks_accepts_witness :
    (K4.do_process T1).node_counts K4.context.self_id + K4.output.items.length
      = K4.node_counts K4.context.self_id + (K4.do_process T1).output.items.length :=
  (distributeAggregate_scalar_count_tracks_accepts K4 T1 rfl).1

theorem joinRows_eq_nil (ls : List (List Row)) (h : ∀ l ∈ ls, l = []) :
    joinRows ls = [] := by
  induction ls with
  | nil => rfl
  | cons a as ih =>
    rw [joinRows, h a (List.mem_cons_self a as), ih (fun l hl => h l (List.mem_cons_of_mem a hl))]
    rfl

/-- Claim C5: when the parsed expression has no group columns and a non-empty
aggregation list, MergeAggregateKernel recomputes only on the master node
(compute_aggregations_without_groupby over the concatenation with the
merge-rewritten parameters); on a non-master node the output is the
concatenation of the inputs unchanged, so when every input of a non-master
node is empty its merged batch is empty and only the master emits rows. -/
theorem mergeAggregate_scalar_master_only
    (ops : AggOps) (expr : String) (inputs : List BlazingTable)
    (hg : (ops.parseGroupByExpression expr).group_column_indices = [])
    (ht : (ops.parseGroupByExpression expr).aggregation_types ≠ []) :
    MergeAggregateKernel.merged_columns ops expr false inputs = concatTables inputs
    ∧ MergeAggregateKernel.merged_columns ops expr true inputs
        = ops.compute_aggregations_without_groupby (concatTables inputs)
            (ops.modGroupByParametersForMerge
              (ops.parseGroupByExpression expr).group_column_indices
              (ops.parseGroupByExpression expr).aggregation_types
              (concatTables inputs).names).aggregation_input_expressions
            (ops.modGroupByParametersForMerge
              (ops.parseGroupByExpression expr).group_column_indices
              (ops.parseGroupByExpression expr).aggregation_types
              (concatTables inputs).names).aggregation_types
            (ops.modGroupByParametersForMerge
              (ops.parseGroupByExpression expr).group_column_indices
              (ops.parseGroupByExpression expr).aggregation_types
              (concatTables inputs).names).aggregation_column_assigned_aliases
    ∧ ((∀ t ∈ inputs, t.rows = []) →
        (MergeAggregateKernel.merged_columns ops expr false inputs).rows = []) := by
  have hlent : ¬ (ops.parseGroupByExpression expr).aggregation_types.length = 0 := by
    simpa [List.length_eq_zero] using ht
  have hleng : (ops.parseGroupByExpression expr).group_column_indices.length = 0 := by
    rw [hg]; rfl
  refine ⟨?_, ?_, ?_⟩
  · simp [MergeAggregateKernel.merged_columns, hlent, hleng]
  · simp [MergeAggregateKernel.merged_columns, hlent, hleng]
  · intro hall
    have hjoin : joinRows (inputs.map BlazingTable.rows) = [] := by
      apply joinRows_eq_nil
      intro l hl
      rcases List.mem_map.mp hl with ⟨t, htmem, rfl⟩
      exact hall t htmem
    simp [MergeAggregateKernel.merged_columns, hlent, hleng, concatTables, hjoin]

theorem mergeAggregate_scalar_master_only_witness :
    MergeAggregateKernel.merged_columns modelOps "scalar" false [T1]
      = concatTables [T1] :=
  (mergeAggregate_scalar_master_only modelOps "scalar" [T1] (by decide) (by decide)).1

/-- Claim C6: MergeAggregateKernel::run first waits for the input cache to be
finished (the events exist only once it is; an unfinished cache blocks the
run), then drains every item, and submits exactly one task whose input list is
all the drained items in order; the single task submission comes after the
wait and before the barrier and the return. -/
theorem mergeAggregate_run_single_task (c : CacheMachine) :
    (c.finished = true →
      MergeAggregateKernel.run_events c
        = some [KEvent.waitUntilFinished, KEvent.addTask c.items,
                KEvent.barrierTasksEmpty, KEvent.ret kstatus.proceed])
    ∧ (c.finished = false → MergeAggregateKernel.run_events c = none) := by
  constructor
  · intro h
    simp [MergeAggregateKernel.run_events, h, drainAll_eq]
  · intro h
    simp [MergeAggregateKernel.run_events, h]

/-- Claim C7: in DistributeAggregateKernel::run, the task barrier sits right
after the per-batch task submissions and no submission occurs at or after it;
send_total_partition_counts comes after the barrier and transmits the
per-destination counters as they stand after all batches were processed;
wait_for_count targets the sum of the counts received from all peers; the
return of proceed is the last event, after the wait. -/
theorem distributeAggregate_run_ordering (k : DistributeAggregateKernel)
    (batches : List BlazingTable) (received_counts : List Nat) :
    (k.run_events batches received_counts).length = batches.length + 4
    ∧ (k.run_events batches received_counts)[batches.length]?
        = some KEvent.barrierTasksEmpty
    ∧ (k.run_events batches received_counts)[batches.length + 1]?
        = some (KEvent.sendCounts
            ((List.range k.context.total_nodes).map (k.processAll batches).node_counts))
    ∧ (k.run_events batches received_counts)[batches.length + 2]?
        = some (KEvent.waitForCount received_counts.sum)
    ∧ (k.run_events batches received_counts)[batches.length + 3]?
        = some (KEvent.ret kstatus.proceed)
    ∧ (∀ i, batches.length ≤ i → ∀ xs,
        (k.run_events batches received_counts)[i]? ≠ some (KEvent.addTask xs)) := by
  have hlenmap : (batches.map (fun b => KEvent.addTask [b])).length = batches.length := by
    simp
  refine ⟨?_, ?_, ?_, ?_, ?_, ?_⟩
  · simp [DistributeAggregateKernel.run_events]
  · rw [DistributeAggregateKernel.run_events,
      List.getElem?_append_right (by omega), hlenmap]
    simp
  · rw [DistributeAggregateKernel.run_events,
      List.getElem?_append_right (by omega), hlenmap]
    simp
  · rw [DistributeAggregateKernel.run_events,
      List.getElem?_append_right (by omega), hlenmap]
    simp
  · rw [DistributeAggregateKernel.run_events,
      List.getElem?_append_right (by omega), hlenmap]
    simp
  · intro i hi xs
    rw [DistributeAggregateKernel.run_events,
      List.getElem?_append_right (by omega), hlenmap]
    rcases Nat.exists_eq_add_of_le hi with ⟨j, rfl⟩
    rw [Nat.add_sub_cancel_left]
    rcases j with _ | _ | _ | _ | j <;> simp

/-- Claim C8 counterexample: with an empty (already drained) input stream each
kernel's run() returns proceed, yet no finish() call on the kernel's own
output cache occurs anywhere in the run trace, refuting the claim that the
output cache has been finished before run() returns. -/
theorem kernels_run_no_finish_cex :
    KEvent.finishOutput ∉ ComputeAggregateKernel.run_events []
    ∧ KEvent.ret kstatus.proceed ∈ ComputeAggregateKernel.run_events []
    ∧ KEvent.finishOutput ∉ K3.run_events [] []
    ∧ KEvent.ret kstatus.proceed ∈ K3.run_events [] []
    ∧ MergeAggregateKernel.run_events ⟨[], true, true⟩
        = some [KEvent.waitUntilFinished, KEvent.addTask [],
                KEvent.barrierTasksEmpty, KEvent.ret kstatus.proceed]
    ∧ KEvent.finishOutput ∉ [KEvent.waitUntilFinished, KEvent.addTask ([] : List BlazingTable),
        KEvent.barrierTasksEmpty, KEvent.ret kstatus.proceed] := by
  refine ⟨by decide, by decide, ?_, ?_, rfl, by decide⟩
  · show KEvent.finishOutput ∉ [KEvent.barrierTasksEmpty,
      KEvent.sendCounts [0], KEvent.waitForCount 0, KEvent.ret kstatus.proceed]
    decide
  · show KEvent.ret kstatus.proceed ∈ [KEvent.barrierTasksEmpty,
      KEvent.sendCounts [0], KEvent.waitForCount 0, KEvent.ret kstatus.proceed]
    decide

/-- Claim C8 (amended): each of the three kernels' run() returns proceed only
after the condition-variable barrier has observed the outstanding task set
empty — the barrier event precedes the final return event in every trace —
but none of the three run() bodies finishes its own output cache; the
finish() happens outside run(). -/
theorem kernels_run_barrier_before_return (bs1 bs2 : List BlazingTable)
    (k : DistributeAggregateKernel) (rc : List Nat)
    (xs : List BlazingTable) (de : Bool) :
    (ComputeAggregateKernel.run_events bs1)[bs1.length]?
        = some KEvent.barrierTasksEmpty
    ∧ (ComputeAggregateKernel.run_events bs1)[bs1.length + 1]?
        = some (KEvent.ret kstatus.proceed)
    ∧ (ComputeAggregateKernel.run_events bs1).length = bs1.length + 2
    ∧ KEvent.finishOutput ∉ ComputeAggregateKernel.run_events bs1
    ∧ (k.run_events bs2 rc)[bs2.length]? = some KEvent.barrierTasksEmpty
    ∧ (k.run_events bs2 rc)[bs2.length + 3]? = some (KEvent.ret kstatus.proceed)
    ∧ (k.run_events bs2 rc).length = bs2.length + 4
    ∧ KEvent.finishOutput ∉ k.run_events bs2 rc
    ∧ MergeAggregateKernel.run_events ⟨xs, de, true⟩
        = some [KEvent.waitUntilFinished, KEvent.addTask xs,
                KEvent.barrierTasksEmpty, KEvent.ret kstatus.proceed]
    ∧ KEvent.finishOutput ∉ [KEvent.waitUntilFinished, KEvent.addTask xs,
        KEvent.barrierTasksEmpty, KEvent.ret kstatus.proceed] := by
  have hlen1 : (bs1.map (fun b => KEvent.addTask [b])).length = bs1.length := by simp
  have hlen2 : (bs2.map (fun b => KEvent.addTask [b])).length = bs2.length := by simp
  refine ⟨?_, ?_, ?_, ?_, ?_, ?_, ?_, ?_, ?_, ?_⟩
  · rw [ComputeAggregateKernel.run_events,
      List.getElem?_append_right (by omega), hlen1]
    simp
  · rw [ComputeAggregateKernel.run_events,
      List.getElem?_append_right (by omega), hlen1]
    simp
  · simp [ComputeAggregateKernel.run_events]
  · simp [ComputeAggregateKernel.run_events]
  · rw [DistributeAggregateKernel.run_events,
      List.getElem?_append_right (by omega), hlen2]
    simp
  · rw [DistributeAggregateKernel.run_events,
      List.getElem?_append_right (by omega), hlen2]
    simp
  · simp [DistributeAggregateKernel.run_events]
  · simp [DistributeAggregateKernel.run_events]
  · simp [MergeAggregateKernel.run_events, drainAll_eq]
  · simp

/-- State of a DistributeAggregateKernel as constructed, before any batch was
processed: first-batch flag clear, every per-destination counter zero, no
messages sent, nothing scattered. -/
def DistributeAggregateKernel.fresh (ctx : Context) (g ch : List Nat)
    (out : CacheMachine) : DistributeAggregateKernel :=
  ⟨ctx, g, ch, false, out, fun _ => 0, [], []⟩

/-- Claim C9 (amended): on an input stream finished with zero batches,
ComputeAggregateKernel::run submits no task and returns proceed;
DistributeAggregateKernel::run submits no task, reports a zero partition count
to every peer, and when all received counts are zero its wait_for_count(0)
unblocks on any cache state; MergeAggregateKernel::run returns proceed but
still submits exactly one task whose input list is empty — so Merge's
do_process still runs and may add a batch to the output cache. -/
theorem pipeline_empty_input (ctx : Context) (g ch : List Nat)
    (out : CacheMachine) (rc : List Nat) (hrc : ∀ x ∈ rc, x = 0) :
    ComputeAggregateKernel.run_events []
        = [KEvent.barrierTasksEmpty, KEvent.ret kstatus.proceed]
    ∧ (DistributeAggregateKernel.fresh ctx g ch out).run_events [] rc
        = [KEvent.barrierTasksEmpty,
           KEvent.sendCounts (List.replicate ctx.total_nodes 0),
           KEvent.waitForCount 0, KEvent.ret kstatus.proceed]
    ∧ (∀ c : CacheMachine, c.wait_for_count_unblocked 0)
    ∧ MergeAggregateKernel.run_events ⟨[], out.dropEmpties, true⟩
        = some [KEvent.waitUntilFinished, KEvent.addTask [],
                KEvent.barrierTasksEmpty, KEvent.ret kstatus.proceed] := by
  refine ⟨rfl, ?_, ?_, ?_⟩
  · have hsum : rc.sum = 0 := List.sum_eq_zero hrc
    simp [DistributeAggregateKernel.run_events, DistributeAggregateKernel.processAll,
      DistributeAggregateKernel.fresh, hsum, List.map_const', List.length_range]
  · intro c
    exact Nat.zero_le _
  · simp [MergeAggregateKernel.run_events, drainAll_eq]

theorem pipeline_empty_input_witness :
    ComputeAggregateKernel.run_events []
      = [KEvent.barrierTasksEmpty, KEvent.ret kstatus.proceed] :=
  (pipeline_empty_input ⟨2, 0, 0⟩ [] [] wCache0 [0, 0] (by decide)).1

/-- Claim C9 counterexample: with the concrete model operators, a scalar
aggregate on the master node and an empty input list, Merge's do_process adds
a one-row batch to the output cache — and Merge's run on an input cache
finished with zero batches still submits one task with no inputs — refuting
the claim that the Merge output cache receives no batches. -/
theorem mergeAggregate_empty_input_emits_cex :
    (MergeAggregateKernel.do_process modelOps "scalar" true [] wCache0).items.length = 1
    ∧ MergeAggregateKernel.run_events ⟨[], true, true⟩
        = some [KEvent.waitUntilFinished, KEvent.addTask [],
                KEvent.barrierTasksEmpty, KEvent.ret kstatus.proceed] := by
  constructor
  · decide
  · rfl
